import Mathlib

/-!
Verification of the auditlog signal receivers (`auditlog/receivers.py`): a
shallow embedding of the four receivers and of the field diff computer, with
the specification's properties proved or refuted against it.
-/

/-- A primitive-serializable field value; `noValue` is the sentinel standing
for an absent value (Python `None`). -/
inductive Value where
  | noValue : Value
  | str : String → Value
  | int : Int → Value
deriving DecidableEq

/-- A field-value snapshot of a record: field name to value. -/
abbrev Snapshot := List (String × Value)

/-- The value a snapshot holds for a field, the sentinel when the field is
absent. -/
def fieldValue (s : Snapshot) (f : String) : Value :=
  match s.lookup f with
  | some v => v
  | none => Value.noValue

/-- Modelled from the spec: the diff computer `model_instance_diff` lives in
`auditlog/diff.py`, a file of this repository that is not under `src/`. Per the
spec, the input is two optional field-value snapshots of the same logical
record; the output is a ChangeSet containing only the fields whose values
differ, comparing by value equality; an absent snapshot is treated as every
field differing from the sentinel "no value". -/
def model_instance_diff (old new : Option Snapshot) : List (String × Value × Value) :=
  match old, new with
  | none, none => []
  | none, some n => n.map (fun fv => (fv.1, Value.noValue, fv.2))
  | some o, none => o.map (fun fv => (fv.1, fv.2, Value.noValue))
  | some o, some n =>
      (o.map Prod.fst).filterMap (fun f =>
        if fieldValue o f = fieldValue n f then none
        else some (f, fieldValue o f, fieldValue n f))

/-- `LogEntry.Action` of `auditlog/models.py` (an external collaborator of the
receivers). -/
inductive LogEntry.Action where
  | CREATE
  | UPDATE
  | DELETE
  | M2M_CHANGE
deriving DecidableEq

/-- The `changes` payload handed to `json.dumps`: a field diff for create,
update and delete, or the m2m payload of one field name, one operation tag and
the affected keys. -/
inductive Changes where
  | diff : List (String × Value × Value) → Changes
  | m2m : String → String → List Int → Changes
deriving DecidableEq

/-- A persisted log entry, as handed to `LogEntry.objects.log_create`. -/
structure LogEntry where
  action : LogEntry.Action
  changes : Changes
deriving DecidableEq

/-- What the receivers see of one many-to-many field of a model instance: the
descriptor's `name` attribute, the identity of the accessor's `through` model
when the accessor has one (compared with the signal's sender by identity), and
the primary keys of the currently related items (what iterating
`_field.all()` yields). -/
structure M2MField where
  name : Option String
  through : Option Nat
  related : List Int
deriving DecidableEq

/-- A model instance as the receivers see it: its primary key (absent when the
record is not persisted), its field-value snapshot, and its many-to-many
fields in `_meta.get_fields()` order. -/
structure Instance where
  pk : Option Int
  snapshot : Snapshot
  m2mFields : List M2MField
deriving DecidableEq

/-- Python `s.startswith(p)`. -/
def startswith (s p : String) : Bool :=
  p.data.isPrefixOf s.data

/-- Python `s[n:]` on a string. -/
def strDrop (s : String) (n : Nat) : String :=
  String.mk (s.data.drop n)

/-- `log_create` of `auditlog/receivers.py`: on the post-save signal with
`created` true, always persist one CREATE entry whose changes diff nothing
against the new instance. -/
def log_create (inst : Instance) (created : Bool) : List LogEntry :=
  if created then
    [⟨LogEntry.Action.CREATE, Changes.diff (model_instance_diff none (some inst.snapshot))⟩]
  else []

/-- `log_update` of `auditlog/receivers.py`: on the pre-save signal, if the
instance has a primary key, fetch the prior state by that key (`db` stands for
`sender.objects.get`, `none` for a raised-and-caught `DoesNotExist`), diff it
against the instance, and persist one UPDATE entry only when the diff is
non-empty. -/
def log_update (db : Int → Option Snapshot) (inst : Instance) : List LogEntry :=
  match inst.pk with
  | none => []
  | some pk =>
    match db pk with
    | none => []
    | some old =>
      let changes := model_instance_diff (some old) (some inst.snapshot)
      if changes = [] then []
      else [⟨LogEntry.Action.UPDATE, Changes.diff changes⟩]

/-- `log_delete` of `auditlog/receivers.py`: on the post-delete signal, if the
instance has a primary key, always persist one DELETE entry whose changes diff
the instance against nothing. -/
def log_delete (inst : Instance) : List LogEntry :=
  match inst.pk with
  | none => []
  | some _ =>
    [⟨LogEntry.Action.DELETE, Changes.diff (model_instance_diff (some inst.snapshot) none)⟩]

/-- `_get_field` of `auditlog/receivers.py`: the first many-to-many field of
the instance whose accessor's `through` model is the sender; `none` when the
loop falls through (Python then returns `None`). -/
def _get_field (sender : Nat) (inst : Instance) : Option M2MField :=
  inst.m2mFields.find? (fun f => decide (f.through = some sender))

/-- `_log_m2m_clear` of `auditlog/receivers.py`: unpack the field found for
the sender (a `TypeError` when `_get_field` returned `None`), collect the
currently related keys, and persist one M2M_CHANGE "clear" entry unless the
field has no name or no keys are related. -/
def _log_m2m_clear (sender : Nat) (inst : Instance) : Except String (List LogEntry) :=
  match _get_field sender inst with
  | none => Except.error "TypeError"
  | some field =>
    let cleared := field.related
    match field.name with
    | none => Except.ok []
    | some fieldName =>
      if cleared.length = 0 then Except.ok []
      else Except.ok [⟨LogEntry.Action.M2M_CHANGE, Changes.m2m fieldName "clear" cleared⟩]

/-- `log_m2m_change` of `auditlog/receivers.py`: drop the event when the
instance has no primary key or the action is `post_clear`; delegate
`pre_clear` to `_log_m2m_clear`; drop actions not prefixed `post_` and empty
key sets; otherwise unpack the field found for the sender (a `TypeError` when
`_get_field` returned `None`) and persist one M2M_CHANGE entry tagged with the
action's suffix and listing the keys, unless the field has no name. -/
def log_m2m_change (sender : Nat) (inst : Instance) (action : String)
    (pk_set : List Int) : Except String (List LogEntry) :=
  if inst.pk = none ∨ action = "post_clear" then Except.ok []
  else if action = "pre_clear" then _log_m2m_clear sender inst
  else if ¬ (startswith action "post_" = true) ∨ pk_set.length = 0 then Except.ok []
  else
    match _get_field sender inst with
    | none => Except.error "TypeError"
    | some field =>
      match field.name with
      | none => Except.ok []
      | some fieldName =>
        Except.ok [⟨LogEntry.Action.M2M_CHANGE, Changes.m2m fieldName (strDrop action 5) pk_set⟩]

/-- The entries a receiver run persisted, when it did not raise. -/
def entriesOf : Except String (List LogEntry) → List LogEntry
  | Except.ok es => es
  | Except.error _ => []

/-- Diffing a snapshot against itself yields no ChangeSet entry. -/
theorem diff_self (s : Snapshot) : model_instance_diff (some s) (some s) = [] := by
  unfold model_instance_diff
  rw [List.filterMap_eq_nil_iff]
  intro f _
  simp

/-- No string starts with both `pre_` and `post_`: their second characters
differ. -/
theorem pre_post_disjoint (s : String) (h1 : startswith s "pre_" = true)
    (h2 : startswith s "post_" = true) : False := by
  unfold startswith at h1 h2
  have e1 : ("pre_" : String).data = ['p', 'r', 'e', '_'] := rfl
  have e2 : ("post_" : String).data = ['p', 'o', 's', 't', '_'] := rfl
  rw [e1] at h1
  rw [e2] at h2
  match hs : s.data with
  | [] =>
    rw [hs] at h1
    simp [List.isPrefixOf] at h1
  | [c] =>
    rw [hs] at h1
    simp [List.isPrefixOf] at h1
  | c0 :: c1 :: t =>
    rw [hs] at h1 h2
    simp [List.isPrefixOf] at h1 h2
    exact absurd (h1.2.1.trans h2.2.1.symm) (by decide)

/-- C7: for every field-value snapshot X, the diff computer applied to (X, X)
yields an empty mapping: comparing a snapshot to itself by value equality
produces no ChangeSet entries. -/
theorem diff_identical_snapshots_empty (s : Snapshot) :
    model_instance_diff (some s) (some s) = [] :=
  diff_self s

/-- C9: the create receiver persists no entry when the save event reports an
already-existing instance (`created` false), and always persists the one
CREATE entry when `created` is true. -/
theorem create_only_when_created_flag (inst : Instance) :
    log_create inst false = [] ∧
    log_create inst true =
      [⟨LogEntry.Action.CREATE, Changes.diff (model_instance_diff none (some inst.snapshot))⟩] :=
  ⟨rfl, rfl⟩

/-- C1: on an update event whose instance has a primary key and whose prior
state is retrievable, an UPDATE entry is persisted only if the diff of the old
and new snapshots is non-empty; identical before and after state yields no
entry. -/
theorem update_logs_only_nonempty_changeset
    (db : Int → Option Snapshot) (inst : Instance) (pk : Int) (old : Snapshot)
    (hpk : inst.pk = some pk) (hdb : db pk = some old) :
    (log_update db inst ≠ [] →
      model_instance_diff (some old) (some inst.snapshot) ≠ []) ∧
    (old = inst.snapshot → log_update db inst = []) := by
  constructor
  · intro hne
    by_cases hc : model_instance_diff (some old) (some inst.snapshot) = []
    · exact absurd (by simp [log_update, hpk, hdb, hc]) hne
    · exact hc
  · intro he
    subst he
    simp [log_update, hpk, hdb, diff_self]

theorem update_logs_only_nonempty_changeset_holds :
    log_update (fun _ => some [("name", Value.str "a")])
      ⟨some 1, [("name", Value.str "a")], []⟩ = [] :=
  (update_logs_only_nonempty_changeset (fun _ => some [("name", Value.str "a")])
    ⟨some 1, [("name", Value.str "a")], []⟩ 1 [("name", Value.str "a")] rfl rfl).2 rfl

/-- C6: an update event whose instance has no primary key, or whose prior
state cannot be looked up because the record no longer exists, is silently
dropped: no entry is persisted (and `log_update` being total, no error is
surfaced). -/
theorem update_unresolved_or_missing_drops
    (db : Int → Option Snapshot) (inst : Instance)
    (h : inst.pk = none ∨ ∃ pk, inst.pk = some pk ∧ db pk = none) :
    log_update db inst = [] := by
  rcases h with h | ⟨pk, hpk, hdb⟩
  · simp [log_update, h]
  · simp [log_update, hpk, hdb]

theorem update_unresolved_or_missing_drops_holds :
    log_update (fun _ => none) ⟨none, [("name", Value.str "a")], []⟩ = [] :=
  update_unresolved_or_missing_drops (fun _ => none)
    ⟨none, [("name", Value.str "a")], []⟩ (Or.inl rfl)

/-- C2 counterexample: a delete event on an instance whose primary key is
absent persists no DELETE entry, so a DELETE entry is not always created when
a delete event fires. -/
theorem delete_event_without_pk_logs_nothing :
    log_delete ⟨none, [("name", Value.str "a")], []⟩ = [] := rfl

/-- C2 amended: a CREATE entry is always persisted when the create event
fires, and a DELETE entry is always persisted when the delete event fires on a
record whose identity resolves (primary key present), in both cases even when
the computed ChangeSet is empty. -/
theorem create_delete_always_log (inst : Instance) (pk : Int)
    (hpk : inst.pk = some pk) :
    log_create inst true =
      [⟨LogEntry.Action.CREATE, Changes.diff (model_instance_diff none (some inst.snapshot))⟩] ∧
    log_delete inst =
      [⟨LogEntry.Action.DELETE, Changes.diff (model_instance_diff (some inst.snapshot) none)⟩] := by
  refine ⟨rfl, ?_⟩
  simp [log_delete, hpk]

theorem create_delete_always_log_holds :
    log_create ⟨some 1, [], []⟩ true = [⟨LogEntry.Action.CREATE, Changes.diff []⟩] ∧
    log_delete ⟨some 1, [], []⟩ = [⟨LogEntry.Action.DELETE, Changes.diff []⟩] :=
  create_delete_always_log ⟨some 1, [], []⟩ 1 rfl

/-- C3: an M2M_CHANGE entry is persisted only for a completed `post_` action
other than `post_clear` with a non-empty key set, or for `pre_clear`; a
`post_clear` event and every other `pre_` event persist nothing. -/
theorem m2m_logs_only_post_nonempty_or_preclear
    (sender : Nat) (inst : Instance) (action : String) (pk_set : List Int) :
    (∀ es, log_m2m_change sender inst action pk_set = Except.ok es → es ≠ [] →
      (startswith action "post_" = true ∧ action ≠ "post_clear" ∧ pk_set ≠ []) ∨
        action = "pre_clear") ∧
    log_m2m_change sender inst "post_clear" pk_set = Except.ok [] ∧
    (startswith action "pre_" = true → action ≠ "pre_clear" →
      log_m2m_change sender inst action pk_set = Except.ok []) := by
  refine ⟨?_, ?_, ?_⟩
  · intro es hok hne
    unfold log_m2m_change at hok
    by_cases h1 : inst.pk = none ∨ action = "post_clear"
    · rw [if_pos h1] at hok
      cases hok
      exact absurd rfl hne
    · rw [if_neg h1] at hok
      by_cases h2 : action = "pre_clear"
      · exact Or.inr h2
      · rw [if_neg h2] at hok
        by_cases h3 : ¬ (startswith action "post_" = true) ∨ pk_set.length = 0
        · rw [if_pos h3] at hok
          cases hok
          exact absurd rfl hne
        · push_neg at h1 h3
          refine Or.inl ⟨h3.1, h1.2, ?_⟩
          intro hnil
          exact h3.2 (by simp [hnil])
  · unfold log_m2m_change
    rw [if_pos (Or.inr rfl)]
  · intro hpre hneq
    unfold log_m2m_change
    by_cases h1 : inst.pk = none ∨ action = "post_clear"
    · rw [if_pos h1]
    · rw [if_neg h1, if_neg hneq,
        if_pos (Or.inl (fun hp => pre_post_disjoint action hpre hp))]

/-- C4: a `pre_clear` event on an instance with a primary key, whose sender
matches a many-to-many field with a name, persists exactly one M2M_CHANGE
entry tagged `clear` and listing every currently related key when that set is
non-empty, and persists nothing when it is empty. -/
theorem preclear_logs_all_related_keys
    (sender : Nat) (inst : Instance) (pk_set : List Int) (pk : Int)
    (f : M2MField) (fieldName : String) (hpk : inst.pk = some pk)
    (hf : _get_field sender inst = some f) (hn : f.name = some fieldName) :
    (f.related ≠ [] →
      log_m2m_change sender inst "pre_clear" pk_set =
        Except.ok [⟨LogEntry.Action.M2M_CHANGE, Changes.m2m fieldName "clear" f.related⟩]) ∧
    (f.related = [] →
      log_m2m_change sender inst "pre_clear" pk_set = Except.ok []) := by
  have hclear : log_m2m_change sender inst "pre_clear" pk_set =
      _log_m2m_clear sender inst := by
    unfold log_m2m_change
    rw [if_neg (by simp [hpk]), if_pos rfl]
  constructor
  · intro hne
    have hlen : ¬ f.related.length = 0 := by
      simpa [List.length_eq_zero] using hne
    rw [hclear]
    simp [_log_m2m_clear, hf, hn, hlen]
  · intro hnil
    rw [hclear]
    simp [_log_m2m_clear, hf, hn, hnil]

theorem preclear_logs_all_related_keys_holds :
    log_m2m_change 0 ⟨some 1, [], [⟨some "tags", some 0, [7, 8]⟩]⟩ "pre_clear" [] =
      Except.ok [⟨LogEntry.Action.M2M_CHANGE, Changes.m2m "tags" "clear" [7, 8]⟩] :=
  (preclear_logs_all_related_keys 0 ⟨some 1, [], [⟨some "tags", some 0, [7, 8]⟩]⟩
    [] 1 ⟨some "tags", some 0, [7, 8]⟩ "tags" rfl rfl rfl).1 (by decide)

/-- C5 counterexample: a `pre_clear` event is an action other than a
`post_`-prefixed one and arrives with an empty key-set argument, yet it
persists an M2M_CHANGE entry, so "with an empty key set, or any other action,
no log entry is produced" fails on the code. -/
theorem preclear_breaks_other_actions_log_nothing :
    startswith "pre_clear" "post_" = false ∧
    log_m2m_change 0 ⟨some 1, [], [⟨some "tags", some 0, [7]⟩]⟩ "pre_clear" [] =
      Except.ok [⟨LogEntry.Action.M2M_CHANGE, Changes.m2m "tags" "clear" [7]⟩] := by
  exact ⟨rfl, rfl⟩

/-- C5 amended: an event whose action is prefixed `post_` (other than
`post_clear`) with a non-empty key set, on an instance with a primary key
whose sender matches a named many-to-many field, persists exactly one
M2M_CHANGE entry tagged with the action's suffix and listing the affected
keys; an empty key set or an action that is neither such a `post_` action nor
`pre_clear` persists nothing — the `pre_clear` case excepted, which is handled
separately and does not read the key-set argument. -/
theorem postaction_logs_suffix_and_keys
    (sender : Nat) (inst : Instance) (action : String) (pk_set : List Int)
    (pk : Int) (f : M2MField) (fieldName : String) (hpk : inst.pk = some pk)
    (hf : _get_field sender inst = some f) (hn : f.name = some fieldName) :
    (startswith action "post_" = true → action ≠ "post_clear" → pk_set ≠ [] →
      log_m2m_change sender inst action pk_set =
        Except.ok [⟨LogEntry.Action.M2M_CHANGE,
          Changes.m2m fieldName (strDrop action 5) pk_set⟩]) ∧
    (pk_set = [] → action ≠ "pre_clear" →
      log_m2m_change sender inst action pk_set = Except.ok []) ∧
    (¬ startswith action "post_" = true → action ≠ "pre_clear" →
      log_m2m_change sender inst action pk_set = Except.ok []) := by
  refine ⟨?_, ?_, ?_⟩
  · intro hpost hnc hnset
    have hlen : ¬ pk_set.length = 0 := by
      simpa [List.length_eq_zero] using hnset
    have hclear : action ≠ "pre_clear" := by
      intro he
      rw [he] at hpost
      exact absurd hpost (by decide)
    unfold log_m2m_change
    rw [if_neg (by simp [hpk, hnc]), if_neg hclear,
      if_neg (by simp [hpost, hlen])]
    simp [hf, hn]
  · intro hset hclear
    unfold log_m2m_change
    by_cases h1 : inst.pk = none ∨ action = "post_clear"
    · rw [if_pos h1]
    · rw [if_neg h1, if_neg hclear, if_pos (Or.inr (by simp [hset]))]
  · intro hpost hclear
    unfold log_m2m_change
    by_cases h1 : inst.pk = none ∨ action = "post_clear"
    · rw [if_pos h1]
    · rw [if_neg h1, if_neg hclear, if_pos (Or.inl hpost)]

theorem postaction_logs_suffix_and_keys_holds :
    log_m2m_change 0 ⟨some 1, [], [⟨some "tags", some 0, [7]⟩]⟩ "post_add" [4, 9] =
      Except.ok [⟨LogEntry.Action.M2M_CHANGE, Changes.m2m "tags" "add" [4, 9]⟩] :=
  (postaction_logs_suffix_and_keys 0 ⟨some 1, [], [⟨some "tags", some 0, [7]⟩]⟩
    "post_add" [4, 9] 1 ⟨some "tags", some 0, [7]⟩ "tags" rfl rfl rfl).1
    (by decide) (by decide) (by decide)

/-- C8: one invocation of any of the four receivers persists at most one log
entry (for the m2m receiver, counting the entries of a run that did not
raise). -/
theorem receivers_log_at_most_one (inst : Instance) (created : Bool)
    (db : Int → Option Snapshot) (sender : Nat) (action : String)
    (pk_set : List Int) :
    (log_create inst created).length ≤ 1 ∧
    (log_update db inst).length ≤ 1 ∧
    (log_delete inst).length ≤ 1 ∧
    (entriesOf (log_m2m_change sender inst action pk_set)).length ≤ 1 := by
  refine ⟨?_, ?_, ?_, ?_⟩
  · unfold log_create
    split <;> simp
  · unfold log_update
    split
    · simp
    · split
      · simp
      · dsimp only
        split <;> simp
  · unfold log_delete
    split <;> simp
  · unfold log_m2m_change
    split
    · simp [entriesOf]
    · split
      · unfold _log_m2m_clear
        split
        · simp [entriesOf]
        · split
          · simp [entriesOf]
          · dsimp only
            split <;> simp [entriesOf]
      · split
        · simp [entriesOf]
        · split
          · simp [entriesOf]
          · split <;> simp [entriesOf]

/-- `List.find?` returns the first element satisfying the predicate: the list
splits around the result, with the predicate false on everything before it. -/
theorem find_some_decomp {α : Type} (p : α → Bool) (l : List α) (a : α)
    (h : l.find? p = some a) :
    ∃ l1 l2, l = l1 ++ a :: l2 ∧ p a = true ∧ ∀ g ∈ l1, p g = false := by
  induction l with
  | nil => simp at h
  | cons x xs ih =>
    by_cases hx : p x = true
    · rw [List.find?_cons_of_pos _ hx] at h
      cases h
      exact ⟨[], xs, rfl, hx, by simp⟩
    · rw [List.find?_cons_of_neg _ hx] at h
      obtain ⟨l1, l2, hsplit, hpa, hall⟩ := ih h
      refine ⟨x :: l1, l2, by rw [hsplit]; rfl, hpa, ?_⟩
      intro g hg
      rcases List.mem_cons.mp hg with rfl | hg
      · simpa using hx
      · exact hall g hg

/-- C10: on an m2m event that passes the action and key-set checks (a
`pre_clear`, or a `post_` action other than `post_clear` with non-empty keys)
on an instance with a primary key: when some many-to-many field's accessor has
the sender as its through model, `_get_field` returns the first such field and
the receiver completes without raising; when no field matches, `_get_field`
returns nothing and the tuple unpacking raises a `TypeError` instead of
silently ignoring the event. -/
theorem get_field_finds_first_or_raises
    (sender : Nat) (inst : Instance) (action : String) (pk_set : List Int)
    (pk : Int) (hpk : inst.pk = some pk)
    (hact : action = "pre_clear" ∨
      (startswith action "post_" = true ∧ action ≠ "post_clear" ∧ pk_set ≠ [])) :
    ((∃ f ∈ inst.m2mFields, f.through = some sender) →
      ∃ l1 f l2, inst.m2mFields = l1 ++ f :: l2 ∧ f.through = some sender ∧
        (∀ g ∈ l1, g.through ≠ some sender) ∧
        _get_field sender inst = some f ∧
        ∃ es, log_m2m_change sender inst action pk_set = Except.ok es) ∧
    ((∀ f ∈ inst.m2mFields, f.through ≠ some sender) →
      _get_field sender inst = none ∧
      log_m2m_change sender inst action pk_set = Except.error "TypeError") := by
  have hnc : action ≠ "post_clear" := by
    rcases hact with h | h
    · rw [h]; decide
    · exact h.2.1
  have hroute : log_m2m_change sender inst action pk_set =
      (if action = "pre_clear" then _log_m2m_clear sender inst
       else
         match _get_field sender inst with
         | none => Except.error "TypeError"
         | some field =>
           match field.name with
           | none => Except.ok []
           | some fieldName =>
             Except.ok [⟨LogEntry.Action.M2M_CHANGE,
               Changes.m2m fieldName (strDrop action 5) pk_set⟩]) := by
    unfold log_m2m_change
    rw [if_neg (by simp [hpk, hnc])]
    by_cases hc : action = "pre_clear"
    · rw [if_pos hc, if_pos hc]
    · rw [if_neg hc, if_neg hc]
      rcases hact with h | ⟨hpost, hnc2, hnset⟩
      · exact absurd h hc
      · rw [if_neg (by simpa [hpost, List.length_eq_zero] using hnset)]
  constructor
  · intro hex
    have hsome : (inst.m2mFields.find? (fun f => decide (f.through = some sender))).isSome := by
      rw [List.find?_isSome]
      obtain ⟨f, hf, hth⟩ := hex
      exact ⟨f, hf, by simpa using hth⟩
    obtain ⟨f, hfind⟩ := Option.isSome_iff_exists.mp hsome
    have hgf : _get_field sender inst = some f := hfind
    obtain ⟨l1, l2, hsplit, hpa, hall⟩ := find_some_decomp _ _ _ hfind
    refine ⟨l1, f, l2, hsplit, by simpa using hpa, ?_, hgf, ?_⟩
    · intro g hg
      simpa using hall g hg
    · rw [hroute]
      by_cases hc : action = "pre_clear"
      · rw [if_pos hc]
        cases hn : f.name with
        | none => exact ⟨[], by simp [_log_m2m_clear, hgf, hn]⟩
        | some nm =>
          by_cases hl : f.related.length = 0
          · exact ⟨[], by simp [_log_m2m_clear, hgf, hn, hl]⟩
          · exact ⟨[⟨LogEntry.Action.M2M_CHANGE, Changes.m2m nm "clear" f.related⟩],
              by simp [_log_m2m_clear, hgf, hn, hl]⟩
      · rw [if_neg hc]
        cases hn : f.name with
        | none => exact ⟨[], by simp [hgf, hn]⟩
        | some nm =>
          exact ⟨[⟨LogEntry.Action.M2M_CHANGE, Changes.m2m nm (strDrop action 5) pk_set⟩],
            by simp [hgf, hn]⟩
  · intro hnone
    have hgf : _get_field sender inst = none := by
      unfold _get_field
      rw [List.find?_eq_none]
      intro x hx
      simpa using hnone x hx
    refine ⟨hgf, ?_⟩
    rw [hroute]
    by_cases hc : action = "pre_clear"
    · rw [if_pos hc]
      simp [_log_m2m_clear, hgf]
    · rw [if_neg hc]
      simp [hgf]

theorem get_field_finds_first_or_raises_holds :
    _get_field 0 ⟨some 1, [], [⟨some "tags", some 3, []⟩]⟩ = none ∧
    log_m2m_change 0 ⟨some 1, [], [⟨some "tags", some 3, []⟩]⟩ "post_add" [7] =
      Except.error "TypeError" :=
  (get_field_finds_first_or_raises 0 ⟨some 1, [], [⟨some "tags", some 3, []⟩]⟩
    "post_add" [7] 1 rfl (Or.inr ⟨by decide, by decide, by decide⟩)).2
    (by decide)
